import Mathlib

/-!
Shallow embedding of the dev-events application core: slug generation and
time normalization (event model pre-save helpers), the event/booking
pre-save validators, the cached MongoDB connection manager, the
GET /api/events/[slug] retrieval handler, and the similar-events query.
Strings are modelled as Lean `String`/`List Char`; JavaScript character
classes are expressed on code points, matching the source regexes.
-/

namespace DevEvents

/-- Code points JavaScript treats as whitespace (`\s`, `String.prototype.trim`). -/
def jsIsSpace (c : Char) : Bool :=
  c.toNat ∈ [9, 10, 11, 12, 13, 32, 160, 0x1680, 0x2000, 0x2001, 0x2002,
    0x2003, 0x2004, 0x2005, 0x2006, 0x2007, 0x2008, 0x2009, 0x200A,
    0x2028, 0x2029, 0x202F, 0x205F, 0x3000, 0xFEFF]

/-- ASCII decimal digit, the `\d` class of the source regexes. -/
def isDigitCh (c : Char) : Bool :=
  48 ≤ c.toNat ∧ c.toNat ≤ 57

/-- Lowercase mapping on the ASCII range, as `toLowerCase` acts on the
alphabet relevant to the source code. -/
def jsLowerChar (c : Char) : Char :=
  if 65 ≤ c.toNat ∧ c.toNat ≤ 90 then Char.ofNat (c.toNat + 32) else c

/-- `String.prototype.trim` on a character list: strip whitespace at both ends. -/
def jsTrimList (l : List Char) : List Char :=
  List.rdropWhile jsIsSpace (l.dropWhile jsIsSpace)

/-- `s.trim().toLowerCase()` composed on a character list (trim first, as in
`timeStr.trim().toLowerCase()`). -/
def jsTrimLower (l : List Char) : List Char :=
  (jsTrimList l).map jsLowerChar

/-- The strict 24-hour pattern `^([01]\d|2[0-3]):([0-5]\d)$`. -/
def match24 (l : List Char) : Bool :=
  match l with
  | [h1, h2, c, m1, m2] =>
    c = ':' ∧
    ((h1 = '0' ∨ h1 = '1') ∧ isDigitCh h2 ∨ h1 = '2' ∧ 48 ≤ h2.toNat ∧ h2.toNat ≤ 51) ∧
    (48 ≤ m1.toNat ∧ m1.toNat ≤ 53) ∧ isDigitCh m2
  | _ => false

/-- `parseInt(ds, 10)` on a digit string. -/
def parseDigits (ds : List Char) : Nat :=
  ds.foldl (fun a c => 10 * a + (c.toNat - 48)) 0

/-- The body of the 12-hour regex before the am/pm suffix:
`^(\d{1,2})(?::([0-5]\d))?\s*` matched against the whole remainder.
Returns the digit group and the minute characters (`'00'` when the optional
minute group is absent). -/
def parse12Body (l : List Char) : Option (List Char × List Char) :=
  let ds := l.takeWhile isDigitCh
  let rest := l.drop ds.length
  if ds.length = 0 ∨ 2 < ds.length then none
  else
    match rest with
    | ':' :: m1 :: m2 :: ws =>
      if (48 ≤ m1.toNat ∧ m1.toNat ≤ 53) ∧ isDigitCh m2 ∧ ws.all jsIsSpace then
        some (ds, [m1, m2])
      else none
    | other =>
      if other.all jsIsSpace then some (ds, ['0', '0']) else none

/-- Split the `(am|pm)$` suffix of the 12-hour regex: returns the body before
the suffix and whether the period is `pm`. -/
def splitAmPm (l : List Char) : Option (List Char × Bool) :=
  match l.reverse with
  | 'm' :: 'a' :: rest => some (rest.reverse, false)
  | 'm' :: 'p' :: rest => some (rest.reverse, true)
  | _ => none

/-- `hour.toString().padStart(2, '0')` for the hour range reached by the code. -/
def padHour (h : Nat) : List Char :=
  if h < 10 then ['0', Char.ofNat (48 + h)]
  else [Char.ofNat (48 + h / 10), Char.ofNat (48 + h % 10)]

/-- `normalizeTime` on a character list: the two-branch match of the source
(strict 24-hour form, then 12-hour form with am/pm), with its two failure
messages. -/
def normalizeTimeCore (l : List Char) : Except String (List Char) :=
  let trimmed := jsTrimLower l
  if match24 trimmed then .ok trimmed
  else
    match splitAmPm trimmed with
    | some (body, isPm) =>
      match parse12Body body with
      | some (ds, minute) =>
        let hour := parseDigits ds
        if hour < 1 ∨ 12 < hour then .error "Invalid 12-hour time format."
        else
          let hour' :=
            if isPm ∧ hour ≠ 12 then hour + 12
            else if ¬ isPm ∧ hour = 12 then 0
            else hour
          .ok (padHour hour' ++ ':' :: minute)
      | none => .error "Invalid time format. Use 24h \x22HH:MM\x22 or 12h \x22H:MM am/pm\x22."
    | none => .error "Invalid time format. Use 24h \x22HH:MM\x22 or 12h \x22H:MM am/pm\x22."

/-- `normalizeTime` from the event model: canonicalize a time string to
24-hour `HH:MM`, or fail with a format error. -/
def normalizeTime (s : String) : Except String String :=
  (normalizeTimeCore s.toList).map String.mk

/-- The `[a-z0-9]` class of the slug regexes. -/
def isSlugChar (c : Char) : Bool :=
  97 ≤ c.toNat ∧ c.toNat ≤ 122 ∨ 48 ≤ c.toNat ∧ c.toNat ≤ 57

/-- Worker for `.replace(/[^a-z0-9]+/g, '-')`: the flag records whether the
scan is inside a non-alphanumeric run whose hyphen was already emitted, so
each maximal run becomes a single hyphen. -/
def collapseAux : Bool → List Char → List Char
  | _, [] => []
  | inRun, c :: rest =>
    if isSlugChar c then c :: collapseAux false rest
    else if inRun then collapseAux true rest
    else '-' :: collapseAux true rest

/-- `.replace(/[^a-z0-9]+/g, '-')`: each maximal run of non-alphanumeric
characters becomes a single hyphen. -/
def collapseRuns (l : List Char) : List Char :=
  collapseAux false l

/-- `.replace(/^-+|-+$/g, '')`: strip leading and trailing hyphen runs. -/
def stripDashes (l : List Char) : List Char :=
  List.rdropWhile (fun c => c = '-') (l.dropWhile (fun c => c = '-'))

/-- `generateSlug` on a character list: lowercase, trim, collapse
non-alphanumeric runs to hyphens, strip edge hyphens. -/
def generateSlugCore (l : List Char) : List Char :=
  stripDashes (collapseRuns (jsTrimList (l.map jsLowerChar)))

/-- `generateSlug` from the event model. -/
def generateSlug (s : String) : String :=
  String.mk (generateSlugCore s.toList)

/-- Deterministic automaton for `^[a-z0-9]+(-[a-z0-9]+)*$`: `seen` records
whether the current hyphen-separated segment already holds an alphanumeric
character. Accepting needs a nonempty final segment; a hyphen is allowed
only after a nonempty segment. -/
def slugDFA : Bool → List Char → Bool
  | seen, [] => seen
  | seen, c :: rest =>
    if isSlugChar c then slugDFA true rest
    else if c = '-' then (if seen then slugDFA false rest else false)
    else false

/-- Recognizer for the spec pattern `^[a-z0-9]+(-[a-z0-9]+)*$`. -/
def slugPatOk (l : List Char) : Bool :=
  slugDFA false l

/-- `String.prototype.trim`. -/
def jsTrim (s : String) : String :=
  String.mk (jsTrimList s.toList)

/-- `String.prototype.toLowerCase` on the ASCII alphabet. -/
def jsLower (s : String) : String :=
  String.mk (s.toList.map jsLowerChar)

/-- The `[^\s@]` class of the booking email regex. -/
def emailChar (c : Char) : Bool :=
  ¬ jsIsSpace c = true ∧ ¬ c = '@'

/-- The booking email regex `^[^\s@]+@[^\s@]+\.[^\s@]+$` on a character
list: a nonempty local part, one `@`, then a remainder over `[^\s@]` that
contains a `.` neither first nor last. -/
def emailOkCore (cs : List Char) : Bool :=
  let a := cs.takeWhile emailChar
  match cs.drop a.length with
  | '@' :: rest =>
    1 ≤ a.length ∧ rest.all emailChar ∧ '.' ∈ (rest.take (rest.length - 1)).drop 1
  | _ => false

/-- `EMAIL_REGEX.test` from the booking model. -/
def emailOk (s : String) : Bool :=
  emailOkCore s.toList

/-- In-flight booking document: the fields the pre-save hook reads and writes. -/
structure BookingDoc where
  email : String
  eventId : Option Nat
deriving Repr, DecidableEq

/-- The booking schema pre-save hook: validate and normalize `email`, then,
for a new booking or a changed event reference, check the referenced event
exists. `eventIds` is the set of ids in the event store; `storeFault` models
a thrown `Event.exists` store error. -/
def bookingPreSave (doc : BookingDoc) (isNew isEventIdModified : Bool)
    (eventIds : List Nat) (storeFault : Option String) : Except String BookingDoc :=
  if (jsTrim doc.email).length = 0 then
    .error "Email is required and must be a non-empty string."
  else
    let normalizedEmail := jsLower (jsTrim doc.email)
    if ¬ emailOk normalizedEmail = true then
      .error "Email is not in a valid format."
    else
      let doc' := { doc with email := normalizedEmail }
      if isNew = true ∨ isEventIdModified = true then
        match doc'.eventId with
        | none => .error "eventId is required."
        | some i =>
          match storeFault with
          | some e => .error e
          | none =>
            if i ∈ eventIds then .ok doc'
            else .error "Referenced event does not exist."
      else .ok doc'

/-- Stored event record, restricted to the fields the retrieval and
similarity paths read (`tags` is optional, matching `event.tags ?? []`). -/
structure EventRec where
  id : Nat
  slug : String
  tags : Option (List String)
deriving Repr, DecidableEq

/-- Error codes of the retrieval endpoint. -/
inductive ErrorCode where
  | MISSING_SLUG
  | INVALID_SLUG_FORMAT
  | EVENT_NOT_FOUND
  | INTERNAL_SERVER_ERROR
deriving Repr, DecidableEq

/-- JSON response of the retrieval endpoint, success and error shapes merged. -/
structure ApiResponse where
  status : Nat
  message : String
  error : Option ErrorCode
  details : Option String
  event : Option EventRec
deriving Repr, DecidableEq

/-- Result of `validateSlug`. -/
inductive SlugValidation where
  | ok (slug : String)
  | bad (status : Nat) (code : ErrorCode) (message : String)
deriving Repr, DecidableEq

/-- The route slug pattern `^[a-z0-9-]+$`. -/
def slugPattern (l : List Char) : Bool :=
  ¬ l = [] ∧ l.all (fun c => isSlugChar c = true ∨ c = '-')

/-- `validateSlug` from the route: presence (JavaScript falsiness, so the
empty string counts as missing), trim + lowercase, then the character-class
check. -/
def validateSlug (rawSlug : Option String) : SlugValidation :=
  match rawSlug with
  | none => .bad 400 .MISSING_SLUG "Slug parameter is required."
  | some raw =>
    if raw = "" then .bad 400 .MISSING_SLUG "Slug parameter is required."
    else
      let slug := jsLower (jsTrim raw)
      if slug = "" then .bad 400 .INVALID_SLUG_FORMAT "Slug parameter cannot be empty."
      else if ¬ slugPattern slug.toList = true then
        .bad 400 .INVALID_SLUG_FORMAT "Slug may only contain lowercase letters, numbers, and hyphens."
      else .ok slug

/-- `split('/')` on a character list, keeping empty segments as JavaScript
does; `cur` accumulates the current segment in reverse. -/
def splitSlashAux : List Char → List Char → List (List Char)
  | cur, [] => [cur.reverse]
  | cur, c :: rest =>
    if c = '/' then cur.reverse :: splitSlashAux [] rest
    else splitSlashAux (c :: cur) rest

/-- `pathname.split('/').filter(Boolean)`. -/
def jsSplitFilter (pathname : String) : List String :=
  ((splitSlashAux [] pathname.toList).map String.mk).filter (fun s => ¬ s = "")

/-- The route's final fallback: the last non-empty path segment, unless it
is `events`. -/
def pathFallback (pathname : String) : Option String :=
  match (jsSplitFilter pathname).getLast? with
  | some lastSegment =>
    if ¬ lastSegment = "" ∧ ¬ lastSegment = "events" then some lastSegment else none
  | none => none

/-- Raw slug resolution of the route: dynamic param, then query param, then
path fallback when the earlier sources are absent or empty (falsy). -/
def resolveRawSlug (paramsSlug querySlug : Option String) (pathname : String) : Option String :=
  let raw0 := match paramsSlug with
    | some s => some s
    | none => querySlug
  match raw0 with
  | none => pathFallback pathname
  | some s =>
    if s = "" then
      match pathFallback pathname with
      | some seg => some seg
      | none => some s
    else some s

/-- `Event.findOne({ slug })`. -/
def findOneBySlug (slug : String) (events : List EventRec) : Option EventRec :=
  events.find? (fun ev => ev.slug = slug)

/-- `GET /api/events/[slug]`. `db` is the persistence boundary: `.error e`
models a connection or store fault thrown inside the handler's `try` block,
`.ok events` a working store holding `events`. The second component records
whether the store/connection was accessed. -/
def GET (paramsSlug querySlug : Option String) (pathname : String) (env : String)
    (db : Except String (List EventRec)) : ApiResponse × Bool :=
  let rawSlug := resolveRawSlug paramsSlug querySlug pathname
  match validateSlug rawSlug with
  | .bad status code message =>
    ({ status := status, message := message, error := some code, details := none,
       event := none }, false)
  | .ok slug =>
    match db with
    | .error e =>
      ({ status := 500, message := "Failed to fetch events.",
         error := some .INTERNAL_SERVER_ERROR,
         details := if env = "development" then some e else none,
         event := none }, true)
    | .ok events =>
      match findOneBySlug slug events with
      | none =>
        ({ status := 404, message := "Event not found.", error := some .EVENT_NOT_FOUND,
           details := none, event := none }, true)
      | some ev =>
        ({ status := 200, message := "Event fetched successfully.", error := none,
           details := none, event := some ev }, true)

/-- Cached mongoose connection state: the established handle and the settled
value of an in-flight connect promise. Handles are numbered abstractly. -/
structure MongooseCache where
  conn : Option Nat
  promise : Option (Except String Nat)
deriving Repr

/-- Outcome of one `connectDB` call: surfaced result, updated cache, and
whether `mongoose.connect` was invoked by this call. -/
structure ConnectResult where
  result : Except String Nat
  cache : MongooseCache
  attempted : Bool
deriving Repr

/-- `connectDB` from `lib/mongodb.ts`: return the cached handle if present;
otherwise await the in-flight promise if one exists; otherwise require the
URI and start a fresh establishment whose settlement is `connectOutcome`.
An awaited failure clears the promise before rethrowing. -/
def connectDB (uri : Option String) (cached : MongooseCache)
    (connectOutcome : Except String Nat) : ConnectResult :=
  match cached.conn with
  | some c => ⟨.ok c, cached, false⟩
  | none =>
    match cached.promise with
    | some p =>
      match p with
      | .ok h => ⟨.ok h, { conn := some h, promise := some p }, false⟩
      | .error e => ⟨.error e, { conn := none, promise := none }, false⟩
    | none =>
      match uri with
      | none =>
        ⟨.error "Please define the MONGODB_URI environment variable inside .env.local",
         cached, false⟩
      | some _ =>
        match connectOutcome with
        | .ok h => ⟨.ok h, { conn := some h, promise := some connectOutcome }, true⟩
        | .error e => ⟨.error e, { conn := none, promise := none }, true⟩

/-- Serialized similar-event record: `_id` and timestamps coerced to strings. -/
structure SerializedEvent where
  idStr : String
  slug : String
  tags : Option (List String)
deriving Repr, DecidableEq

/-- The `.map` serialization of the similar-events action. -/
def serializeEvent (e : EventRec) : SerializedEvent :=
  ⟨toString e.id, e.slug, e.tags⟩

/-- The mongo filter `{ _id: { $ne: event._id }, tags: { $in: event.tags ?? [] } }`
applied to the store: other records sharing at least one source tag. -/
def similarCandidates (src : EventRec) (events : List EventRec) : List EventRec :=
  events.filter (fun e => ¬ e.id = src.id ∧ (e.tags.getD []).any (fun t => t ∈ src.tags.getD []))

/-- The body of the similar-events `try` block: connection, `findOne` (a
null result makes the subsequent `event._id` access throw), the similarity
query, then serialization. -/
def getSimilarInner (slug : String) (db : Except String (List EventRec)) :
    Except String (List SerializedEvent) :=
  match db with
  | .error e => .error e
  | .ok events =>
    match findOneBySlug slug events with
    | none => .error "TypeError: Cannot read properties of null"
    | some src => .ok ((similarCandidates src events).map serializeEvent)

/-- `getSimilarEventsBySlug` from `event.actions.ts`: the `try` body with a
catch-all that degrades every failure to an empty list. -/
def getSimilarEventsBySlug (slug : String) (db : Except String (List EventRec)) :
    List SerializedEvent :=
  match getSimilarInner slug db with
  | .ok l => l
  | .error _ => []

/-- C1 counterexample: the spec vector `normalizeTime("9:05") == "09:05"` fails
on the code — the strict branch requires a two-digit hour and the 12-hour
branch requires an am/pm suffix, so `"9:05"` is rejected with the generic
format error. -/
theorem normalizeTime_nine05_rejected :
    normalizeTime "9:05" =
      .error "Invalid time format. Use 24h \x22HH:MM\x22 or 12h \x22H:MM am/pm\x22." ∧
    ¬ normalizeTime "9:05" = .ok "09:05" := by
  refine ⟨rfl, fun h => ?_⟩
  rw [show normalizeTime "9:05" =
    Except.error "Invalid time format. Use 24h \x22HH:MM\x22 or 12h \x22H:MM am/pm\x22." from rfl] at h
  exact Except.noConfusion h

/-- C1 (amended): the time normalizer's test vectors, with the `"9:05"`
vector corrected to a format failure: `normalizeTime "1pm" = "13:00"`,
`"12am" = "00:00"`, `"12pm" = "12:00"`, and both `"9:05"` and `"13pm"` fail
with a format error. -/
theorem normalizeTime_spec_vectors :
    normalizeTime "1pm" = .ok "13:00" ∧
    normalizeTime "12am" = .ok "00:00" ∧
    normalizeTime "12pm" = .ok "12:00" ∧
    normalizeTime "9:05" =
      .error "Invalid time format. Use 24h \x22HH:MM\x22 or 12h \x22H:MM am/pm\x22." ∧
    normalizeTime "13pm" = .error "Invalid 12-hour time format." :=
  ⟨rfl, rfl, rfl, rfl, rfl⟩

/-- C4: the similarity query degrades every failure of its try-block body to
an empty list — in particular a store or connection fault, and a missing
source event — instead of propagating an error to the caller. -/
theorem getSimilarEventsBySlug_never_raises (slug : String)
    (db : Except String (List EventRec)) :
    (∀ e, getSimilarInner slug db = .error e → getSimilarEventsBySlug slug db = []) ∧
    (∀ e, db = .error e → getSimilarEventsBySlug slug db = []) ∧
    (∀ events, db = .ok events → findOneBySlug slug events = none →
      getSimilarEventsBySlug slug db = []) := by
  refine ⟨fun e h => ?_, fun e h => ?_, fun events h hf => ?_⟩
  · simp [getSimilarEventsBySlug, h]
  · subst h; rfl
  · subst h; simp [getSimilarEventsBySlug, getSimilarInner, hf]

/-- C4 witness: a connection fault and a missing source event both yield the
empty list. -/
theorem getSimilarEventsBySlug_never_raises_witness :
    getSimilarEventsBySlug "my-event" (.error "connection down") = [] ∧
    getSimilarEventsBySlug "my-event" (.ok []) = [] :=
  ⟨(getSimilarEventsBySlug_never_raises "my-event" (.error "connection down")).2.1
      "connection down" rfl,
   (getSimilarEventsBySlug_never_raises "my-event" (.ok [])).2.2 [] rfl rfl⟩

/-- C5: when the source event is found, the similarity query returns exactly
the serialized records of the other events sharing at least one tag with the
source; an empty (or absent) source tag set yields the empty result. -/
theorem getSimilarEventsBySlug_exact (slug : String) (events : List EventRec)
    (src : EventRec) (h : findOneBySlug slug events = some src) :
    getSimilarEventsBySlug slug (.ok events) =
      (similarCandidates src events).map serializeEvent ∧
    (∀ e, e ∈ similarCandidates src events ↔
      e ∈ events ∧ ¬ e.id = src.id ∧ ∃ t ∈ e.tags.getD [], t ∈ src.tags.getD []) ∧
    (src.tags.getD [] = [] → getSimilarEventsBySlug slug (.ok events) = []) := by
  have h1 : getSimilarEventsBySlug slug (.ok events) =
      (similarCandidates src events).map serializeEvent := by
    simp [getSimilarEventsBySlug, getSimilarInner, h]
  refine ⟨h1, fun e => ?_, fun htags => ?_⟩
  · simp [similarCandidates, List.mem_filter]
  · rw [h1]
    simp [similarCandidates, htags]

/-- C5 witness: for a source with tags `["ai", "cloud"]`, the query returns
the one other record sharing a tag and excludes the source itself; a source
with an empty tag list yields the empty result. -/
theorem getSimilarEventsBySlug_exact_witness :
    getSimilarEventsBySlug "a"
        (.ok [⟨1, "a", some ["ai", "cloud"]⟩, ⟨2, "b", some ["ai"]⟩,
              ⟨3, "c", some ["web"]⟩]) =
      (similarCandidates ⟨1, "a", some ["ai", "cloud"]⟩
        [⟨1, "a", some ["ai", "cloud"]⟩, ⟨2, "b", some ["ai"]⟩,
         ⟨3, "c", some ["web"]⟩]).map serializeEvent ∧
    getSimilarEventsBySlug "c" (.ok [⟨3, "c", some []⟩]) = [] :=
  ⟨(getSimilarEventsBySlug_exact "a"
      [⟨1, "a", some ["ai", "cloud"]⟩, ⟨2, "b", some ["ai"]⟩, ⟨3, "c", some ["web"]⟩]
      ⟨1, "a", some ["ai", "cloud"]⟩ rfl).1,
   (getSimilarEventsBySlug_exact "c" [⟨3, "c", some []⟩] ⟨3, "c", some []⟩ rfl).2.2 rfl⟩

/-- C6: the connection cache state machine — an established handle is
returned as-is with no new establishment attempt and an unchanged cache; a
successful establishment caches the handle; a failed establishment surfaces
the error and clears the promise, and the following call performs a fresh
establishment attempt. -/
theorem connectDB_cache_machine (u : String) :
    (∀ cache h out, cache.conn = some h →
      connectDB (some u) cache out = ⟨.ok h, cache, false⟩) ∧
    (∀ h, connectDB (some u) ⟨none, none⟩ (.ok h) =
      ⟨.ok h, ⟨some h, some (.ok h)⟩, true⟩) ∧
    (∀ e, connectDB (some u) ⟨none, none⟩ (.error e) =
      ⟨.error e, ⟨none, none⟩, true⟩) ∧
    (∀ e h,
      connectDB (some u) (connectDB (some u) ⟨none, none⟩ (.error e)).cache (.ok h) =
        ⟨.ok h, ⟨some h, some (.ok h)⟩, true⟩) := by
  refine ⟨fun cache h out hc => ?_, fun h => rfl, fun e => rfl, fun e h => rfl⟩
  obtain ⟨conn, promise⟩ := cache
  cases hc
  rfl

/-- C6 witness: handle 5 cached means calls return 5 without attempting; a
failed establishment surfaces the error, clears the promise, and the next
call establishes afresh. -/
theorem connectDB_cache_machine_witness :
    connectDB (some "mongodb-uri") ⟨some 5, none⟩ (.ok 9) = ⟨.ok 5, ⟨some 5, none⟩, false⟩ ∧
    connectDB (some "mongodb-uri") ⟨none, none⟩ (.error "down") =
      ⟨.error "down", ⟨none, none⟩, true⟩ ∧
    connectDB (some "mongodb-uri")
        (connectDB (some "mongodb-uri") ⟨none, none⟩ (.error "down")).cache (.ok 7) =
      ⟨.ok 7, ⟨some 7, some (.ok 7)⟩, true⟩ :=
  ⟨(connectDB_cache_machine "mongodb-uri").1 ⟨some 5, none⟩ 5 (.ok 9) rfl,
   (connectDB_cache_machine "mongodb-uri").2.2.1 "down",
   (connectDB_cache_machine "mongodb-uri").2.2.2 "down" 7⟩

theorem resolveRawSlug_params (raw : String) (q : Option String) (pathname : String)
    (h : ¬ raw = "") : resolveRawSlug (some raw) q pathname = some raw := by
  simp [resolveRawSlug, h]

/-- C2: the retrieval endpoint's response table — no slug from any source
gives 400 `MISSING_SLUG`; a present slug that trims/lowercases to the empty
string or escapes `[a-z0-9-]+` gives 400 `INVALID_SLUG_FORMAT`; a validated
slug matching no record gives 404 `EVENT_NOT_FOUND`; a validated slug with a
match gives 200 with a message and the matched event. -/
theorem GET_retrieval_contract :
    (∀ pathname env db, pathFallback pathname = none →
      (GET none none pathname env db).1.status = 400 ∧
      (GET none none pathname env db).1.error = some .MISSING_SLUG) ∧
    (∀ raw q pathname env db, ¬ raw = "" →
      (jsLower (jsTrim raw) = "" ∨ ¬ slugPattern (jsLower (jsTrim raw)).toList = true) →
      (GET (some raw) q pathname env db).1.status = 400 ∧
      (GET (some raw) q pathname env db).1.error = some .INVALID_SLUG_FORMAT) ∧
    (∀ raw q pathname env slug events,
      validateSlug (resolveRawSlug raw q pathname) = .ok slug →
      findOneBySlug slug events = none →
      (GET raw q pathname env (.ok events)).1.status = 404 ∧
      (GET raw q pathname env (.ok events)).1.error = some .EVENT_NOT_FOUND) ∧
    (∀ raw q pathname env slug events ev,
      validateSlug (resolveRawSlug raw q pathname) = .ok slug →
      findOneBySlug slug events = some ev →
      (GET raw q pathname env (.ok events)).1.status = 200 ∧
      (GET raw q pathname env (.ok events)).1.event = some ev ∧
      (GET raw q pathname env (.ok events)).1.message = "Event fetched successfully.") := by
  refine ⟨fun pathname env db hf => ?_, fun raw q pathname env db hne hbad => ?_,
    fun raw q pathname env slug events hv hf => ?_,
    fun raw q pathname env slug events ev hv hf => ?_⟩
  · simp [GET, resolveRawSlug, hf, validateSlug]
  · have hres := resolveRawSlug_params raw q pathname hne
    rcases hbad with hbad | hbad
    · simp [GET, hres, validateSlug, hne, hbad]
    · by_cases hemp : jsLower (jsTrim raw) = ""
      · simp [GET, hres, validateSlug, hne, hemp]
      · have hbad' : slugPattern (jsLower (jsTrim raw)).data = false := by
          simpa using hbad
        simp [GET, hres, validateSlug, hne, hemp, hbad']
  · simp [GET, hv, hf]
  · simp [GET, hv, hf]

/-- C2 witness: the four rows of the response table at concrete requests —
`/api/events` with no slug, raw slug `"My Event!"`, valid slug `"my-event"`
against an empty store, and `"my-event"` against a store holding it. -/
theorem GET_retrieval_contract_witness :
    (GET none none "/api/events" "production" (.ok [])).1.status = 400 ∧
    (GET none none "/api/events" "production" (.ok [])).1.error = some .MISSING_SLUG ∧
    (GET (some "My Event!") none "/api/events/x" "production" (.ok [])).1.status = 400 ∧
    (GET (some "My Event!") none "/api/events/x" "production" (.ok [])).1.error =
      some .INVALID_SLUG_FORMAT ∧
    (GET (some "my-event") none "/x" "production" (.ok [])).1.status = 404 ∧
    (GET (some "my-event") none "/x" "production" (.ok [])).1.error =
      some .EVENT_NOT_FOUND ∧
    (GET (some "my-event") none "/x" "production"
      (.ok [⟨1, "my-event", some ["ai"]⟩])).1.status = 200 ∧
    (GET (some "my-event") none "/x" "production"
      (.ok [⟨1, "my-event", some ["ai"]⟩])).1.event = some ⟨1, "my-event", some ["ai"]⟩ := by
  have h1 := GET_retrieval_contract.1 "/api/events" "production" (.ok []) rfl
  have h2 := GET_retrieval_contract.2.1 "My Event!" none "/api/events/x" "production"
    (.ok []) (by decide) (Or.inr (by decide))
  have h3 := GET_retrieval_contract.2.2.1 "my-event" none "/x" "production" "my-event"
    [] rfl rfl
  have h4 := GET_retrieval_contract.2.2.2 "my-event" none "/x" "production" "my-event"
    [⟨1, "my-event", some ["ai"]⟩] ⟨1, "my-event", some ["ai"]⟩ rfl rfl
  exact ⟨h1.1, h1.2, h2.1, h2.2, h3.1, h3.2, h4.1, h4.2.1⟩

/-- C7 counterexample: the claim promises the `details` field in every
non-production context, but with `NODE_ENV = "test"` — not production — a
store fault returns 500 `INTERNAL_SERVER_ERROR` with `details` suppressed:
the code includes `details` only when the environment is `development`. -/
theorem GET_test_env_suppresses_details :
    (GET (some "my-event") none "/x" "test" (.error "boom")).1.status = 500 ∧
    (GET (some "my-event") none "/x" "test" (.error "boom")).1.error =
      some .INTERNAL_SERVER_ERROR ∧
    (GET (some "my-event") none "/x" "test" (.error "boom")).1.details = none ∧
    ¬ "test" = "production" := by
  refine ⟨rfl, rfl, rfl, by decide⟩

/-- C7 (amended): an unexpected store or connection fault on a validated
slug yields 500 `INTERNAL_SERVER_ERROR`, and the diagnostic `details` field
is included exactly when the environment is `development` (so it is
suppressed in production and in every other non-development context). -/
theorem GET_fault_500 (raw q : Option String) (pathname env e slug : String)
    (hv : validateSlug (resolveRawSlug raw q pathname) = .ok slug) :
    (GET raw q pathname env (.error e)).1.status = 500 ∧
    (GET raw q pathname env (.error e)).1.error = some .INTERNAL_SERVER_ERROR ∧
    (GET raw q pathname env (.error e)).1.details =
      (if env = "development" then some e else none) := by
  simp [GET, hv]

/-- C7 witness: in development the fault detail is echoed; in production it
is suppressed. -/
theorem GET_fault_500_witness :
    (GET (some "my-event") none "/x" "development" (.error "boom")).1.status = 500 ∧
    (GET (some "my-event") none "/x" "development" (.error "boom")).1.details =
      some "boom" ∧
    (GET (some "my-event") none "/x" "production" (.error "boom")).1.details = none := by
  have h1 := GET_fault_500 (some "my-event") none "/x" "development" "boom" "my-event" rfl
  have h2 := GET_fault_500 (some "my-event") none "/x" "production" "boom" "my-event" rfl
  exact ⟨h1.1, by rw [h1.2.2]; rfl, by rw [h2.2.2]; rfl⟩

/-- C9: when slug validation fails, the handler answers the client error
without touching the connection or the store: the access flag is false, the
response is the validation error, and the response does not depend on the
state of the persistence boundary. -/
theorem GET_validation_failure_no_store_access (raw q : Option String)
    (pathname env : String) (db : Except String (List EventRec))
    (status : Nat) (code : ErrorCode) (msg : String)
    (h : validateSlug (resolveRawSlug raw q pathname) = .bad status code msg) :
    (GET raw q pathname env db).2 = false ∧
    (GET raw q pathname env db).1.status = status ∧
    (GET raw q pathname env db).1.error = some code ∧
    (∀ db', GET raw q pathname env db = GET raw q pathname env db') := by
  refine ⟨?_, ?_, ?_, fun db' => ?_⟩ <;> simp [GET, h]

/-- C9 witness: the malformed slug `"My Event!"` is answered 400 with no
store access, whether the store is up or down. -/
theorem GET_validation_failure_no_store_access_witness :
    (GET (some "My Event!") none "/x" "production" (.ok [])).2 = false ∧
    GET (some "My Event!") none "/x" "production" (.ok []) =
      GET (some "My Event!") none "/x" "production" (.error "down") := by
  have h := GET_validation_failure_no_store_access (some "My Event!") none "/x"
    "production" (.ok []) 400 .INVALID_SLUG_FORMAT
    "Slug may only contain lowercase letters, numbers, and hyphens." rfl
  exact ⟨h.1, h.2.2.2 (.error "down")⟩

/-- C8: the booking pre-save hook stores the trimmed, lowercased email on
the accepted document; rejects an email that is empty after trimming or
fails the pattern; and, when the booking is new or its event reference
changed, rejects a reference to an id absent from the event store. -/
theorem bookingPreSave_contract :
    (∀ doc isNew isMod ids fault doc',
      bookingPreSave doc isNew isMod ids fault = .ok doc' →
      doc'.email = jsLower (jsTrim doc.email) ∧ doc'.eventId = doc.eventId) ∧
    (∀ doc isNew isMod ids fault, jsTrim doc.email = "" →
      bookingPreSave doc isNew isMod ids fault =
        .error "Email is required and must be a non-empty string.") ∧
    (∀ doc isNew isMod ids fault, ¬ jsTrim doc.email = "" →
      ¬ emailOk (jsLower (jsTrim doc.email)) = true →
      bookingPreSave doc isNew isMod ids fault =
        .error "Email is not in a valid format.") ∧
    (∀ doc isNew isMod ids i, (isNew = true ∨ isMod = true) →
      doc.eventId = some i → ¬ i ∈ ids →
      ¬ jsTrim doc.email = "" → emailOk (jsLower (jsTrim doc.email)) = true →
      bookingPreSave doc isNew isMod ids none =
        .error "Referenced event does not exist.") := by
  have hlen : ∀ s : String, (jsTrim s).length = 0 ↔ jsTrim s = "" := by
    intro s
    constructor
    · intro h
      cases heq : jsTrim s with
      | mk data => cases data with
        | nil => rfl
        | cons a t => rw [heq] at h; simp [String.length] at h
    · intro h; rw [h]; rfl
  refine ⟨fun doc isNew isMod ids fault doc' h => ?_,
    fun doc isNew isMod ids fault h => ?_,
    fun doc isNew isMod ids fault h1 h2 => ?_,
    fun doc isNew isMod ids i hflag hid hmem h1 h2 => ?_⟩
  · by_cases he : (jsTrim doc.email).length = 0
    · simp [bookingPreSave, he] at h
    · simp only [bookingPreSave, he, if_false, if_neg he] at h
      by_cases hv : emailOk (jsLower (jsTrim doc.email)) = true
      · simp only [hv, not_true_eq_false, if_false] at h
        split at h <;> [skip; (cases h; exact ⟨rfl, rfl⟩)]
        split at h
        · exact absurd h (by simp)
        · split at h
          · exact absurd h (by simp)
          · split at h
            · cases h; exact ⟨rfl, rfl⟩
            · exact absurd h (by simp)
      · simp [hv] at h
  · simp [bookingPreSave, (hlen doc.email).2 h]
  · have : ¬ (jsTrim doc.email).length = 0 := fun hc => h1 ((hlen doc.email).1 hc)
    simp [bookingPreSave, this, h2]
  · have : ¬ (jsTrim doc.email).length = 0 := fun hc => h1 ((hlen doc.email).1 hc)
    rcases hflag with hflag | hflag <;>
      simp [bookingPreSave, this, h2, hflag, hid, hmem]

/-- C8 witness: `"  USER@Example.com "` is stored as `"user@example.com"`;
a blank email and a non-pattern email are rejected; a new booking against a
missing event id is rejected with the referential error. -/
theorem bookingPreSave_contract_witness :
    (⟨"user@example.com", some 1⟩ : BookingDoc).email =
      jsLower (jsTrim "  USER@Example.com ") ∧
    bookingPreSave ⟨"   ", some 1⟩ true false [1] none =
      .error "Email is required and must be a non-empty string." ∧
    bookingPreSave ⟨"not-an-email", some 1⟩ true false [1] none =
      .error "Email is not in a valid format." ∧
    bookingPreSave ⟨"a@b.com", some 2⟩ true false [1] none =
      .error "Referenced event does not exist." := by
  refine ⟨?_, ?_, ?_, ?_⟩
  · exact (bookingPreSave_contract.1 ⟨"  USER@Example.com ", some 1⟩ true false [1] none
      ⟨"user@example.com", some 1⟩ rfl).1
  · exact bookingPreSave_contract.2.1 ⟨"   ", some 1⟩ true false [1] none (by decide)
  · exact bookingPreSave_contract.2.2.1 ⟨"not-an-email", some 1⟩ true false [1] none
      (by decide) (by decide)
  · exact bookingPreSave_contract.2.2.2 ⟨"a@b.com", some 2⟩ true false [1] 2
      (Or.inl rfl) rfl (by decide) (by decide) (by decide)

theorem timeChar_fix {c : Char} (h : c.toNat = 58 ∨ 48 ≤ c.toNat ∧ c.toNat ≤ 57) :
    jsLowerChar c = c ∧ jsIsSpace c = false := by
  constructor
  · unfold jsLowerChar
    rw [if_neg]
    omega
  · simp only [jsIsSpace, List.mem_cons, decide_eq_false_iff_not]
    simp only [List.not_mem_nil, or_false]
    omega

theorem dropWhile_eq_self_of_none {p : Char → Bool} {l : List Char}
    (h : ∀ c ∈ l, p c = false) : l.dropWhile p = l := by
  cases l with
  | nil => rfl
  | cons a t => simp [List.dropWhile_cons, h a (List.mem_cons_self a t)]

theorem rdropWhile_eq_self_of_none {p : Char → Bool} {l : List Char}
    (h : ∀ c ∈ l, p c = false) : List.rdropWhile p l = l := by
  refine List.rdropWhile_eq_self_iff.mpr fun hl => ?_
  simp [h _ (List.getLast_mem hl)]

theorem jsTrimList_eq_self {l : List Char} (h : ∀ c ∈ l, jsIsSpace c = false) :
    jsTrimList l = l := by
  unfold jsTrimList
  rw [dropWhile_eq_self_of_none h, rdropWhile_eq_self_of_none h]

theorem map_lower_eq_self {l : List Char} (h : ∀ c ∈ l, jsLowerChar c = c) :
    l.map jsLowerChar = l := by
  induction l with
  | nil => rfl
  | cons a t ih =>
    simp only [List.map_cons, h a (List.mem_cons_self a t)]
    rw [ih fun c hc => h c (List.mem_cons_of_mem a hc)]

theorem jsTrimLower_eq_self {l : List Char}
    (h : ∀ c ∈ l, c.toNat = 58 ∨ 48 ≤ c.toNat ∧ c.toNat ≤ 57) :
    jsTrimLower l = l := by
  unfold jsTrimLower
  rw [jsTrimList_eq_self fun c hc => (timeChar_fix (h c hc)).2]
  exact map_lower_eq_self fun c hc => (timeChar_fix (h c hc)).1

theorem match24_elim {m : List Char} (h : match24 m = true) :
    ∃ h1 h2 m1 m2, m = [h1, h2, ':', m1, m2] ∧
      ((h1 = '0' ∨ h1 = '1') ∧ isDigitCh h2 = true ∨
        h1 = '2' ∧ 48 ≤ h2.toNat ∧ h2.toNat ≤ 51) ∧
      (48 ≤ m1.toNat ∧ m1.toNat ≤ 53) ∧ isDigitCh m2 = true := by
  rcases m with _ | ⟨a, _ | ⟨b, _ | ⟨c, _ | ⟨d, _ | ⟨e, rest⟩⟩⟩⟩⟩
  · simp [match24] at h
  · simp [match24] at h
  · simp [match24] at h
  · simp [match24] at h
  · simp [match24] at h
  cases rest with
  | cons f t => simp [match24] at h
  | nil =>
    simp only [match24, decide_eq_true_eq] at h
    obtain ⟨hc, hh, hm1, hm2⟩ := h
    subst hc
    exact ⟨a, b, d, e, rfl, hh, hm1, hm2⟩

theorem match24_chars {m : List Char} (h : match24 m = true) :
    ∀ c ∈ m, c.toNat = 58 ∨ 48 ≤ c.toNat ∧ c.toNat ≤ 57 := by
  obtain ⟨h1, h2, m1, m2, rfl, hh, hm1, hm2⟩ := match24_elim h
  intro c hc
  simp only [List.mem_cons, List.not_mem_nil, or_false] at hc
  simp only [isDigitCh, decide_eq_true_eq] at hh hm2
  rcases hc with rfl | rfl | rfl | rfl | rfl
  · rcases hh with ⟨h01, _⟩ | ⟨h2eq, _⟩
    · rcases h01 with rfl | rfl
      · right; constructor <;> decide
      · right; constructor <;> decide
    · subst h2eq; right; constructor <;> decide
  · rcases hh with ⟨_, hd⟩ | ⟨_, hb⟩
    · right; exact hd
    · right; omega
  · left; decide
  · right; omega
  · right; exact hm2

theorem match24_roundtrip {m : List Char} (h : match24 m = true) :
    normalizeTimeCore m = .ok m := by
  simp [normalizeTimeCore, jsTrimLower_eq_self (match24_chars h), h]

theorem parse12Body_minute {body ds minute : List Char}
    (h : parse12Body body = some (ds, minute)) :
    ∃ m1 m2, minute = [m1, m2] ∧ (48 ≤ m1.toNat ∧ m1.toNat ≤ 53) ∧
      isDigitCh m2 = true := by
  simp only [parse12Body] at h
  split at h
  · exact absurd h (by simp)
  · split at h
    · rename_i m1 m2 ws heq
      split at h
      · rename_i hcond
        have hmin : minute = [m1, m2] := (congrArg Prod.snd (Option.some.inj h)).symm
        exact ⟨m1, m2, hmin, hcond.1, hcond.2.1⟩
      · exact absurd h (by simp)
    · split at h
      · have hmin : minute = ['0', '0'] := (congrArg Prod.snd (Option.some.inj h)).symm
        exact ⟨'0', '0', hmin, by decide, by decide⟩
      · exact absurd h (by simp)

theorem padHour_minute_match24 {h : Nat} (hh : h ≤ 23) {m1 m2 : Char}
    (hm1 : 48 ≤ m1.toNat ∧ m1.toNat ≤ 53) (hm2 : isDigitCh m2 = true) :
    match24 (padHour h ++ ':' :: [m1, m2]) = true := by
  interval_cases h <;> exact decide_eq_true ⟨rfl, by decide, hm1, hm2⟩

theorem normalizeTimeCore_ok {l m : List Char} (h : normalizeTimeCore l = .ok m) :
    match24 m = true ∧ normalizeTimeCore m = .ok m := by
  by_cases h24 : match24 (jsTrimLower l) = true
  · have hm : m = jsTrimLower l := by
      simp only [normalizeTimeCore, h24, if_true] at h
      exact (Except.ok.inj h).symm
    subst hm
    exact ⟨h24, match24_roundtrip h24⟩
  · simp only [normalizeTimeCore] at h
    rw [if_neg h24] at h
    split at h
    · rename_i body isPm hsp
      split at h
      · rename_i ds minute hpb
        split at h
        · exact absurd h (by simp)
        · rename_i hguard
          push_neg at hguard
          obtain ⟨m1, m2, hmin, hm1, hm2⟩ := parse12Body_minute hpb
          subst hmin
          have hinj := Except.ok.inj h
          have h24n : match24 m = true := by
            rw [← hinj]
            exact padHour_minute_match24 (by split_ifs <;> omega) hm1 hm2
          exact ⟨h24n, match24_roundtrip h24n⟩
      · exact absurd h (by simp)
    · exact absurd h (by simp)


/-- C10: every successful output of the time normalizer matches the strict
24-hour pattern `^([01]\d|2[0-3]):([0-5]\d)$`, so re-applying the normalizer
to any of its own successful outputs succeeds and returns the same string. -/
theorem normalizeTime_canonical_idempotent (s t : String)
    (h : normalizeTime s = .ok t) :
    match24 t.toList = true ∧ normalizeTime t = .ok t := by
  unfold normalizeTime at h ⊢
  cases hc : normalizeTimeCore s.toList with
  | error e => rw [hc] at h; exact absurd h (by simp [Except.map])
  | ok m =>
    rw [hc] at h
    simp only [Except.map] at h
    have ht : t = String.mk m := by cases h; rfl
    subst ht
    obtain ⟨hm, hrt⟩ := normalizeTimeCore_ok hc
    have htl : (String.mk m).toList = m := rfl
    rw [htl, hrt]
    exact ⟨hm, rfl⟩

/-- C10 witness: the normalizer maps `"1pm"` to `"13:00"`, which matches the
strict pattern and is a fixed point of the normalizer. -/
theorem normalizeTime_canonical_idempotent_witness :
    match24 ("13:00" : String).toList = true ∧ normalizeTime "13:00" = .ok "13:00" :=
  normalizeTime_canonical_idempotent "1pm" "13:00" rfl

theorem slugChar_fix {c : Char} (h : isSlugChar c = true ∨ c = '-') :
    jsLowerChar c = c ∧ jsIsSpace c = false := by
  rcases h with h | rfl
  · simp only [isSlugChar, decide_eq_true_eq] at h
    constructor
    · unfold jsLowerChar
      rw [if_neg]
      omega
    · simp only [jsIsSpace, List.mem_cons, List.not_mem_nil, or_false,
        decide_eq_false_iff_not]
      omega
  · exact ⟨by decide, by decide⟩

theorem slugChar_ne_dash {c : Char} (h : isSlugChar c = true) : ¬ c = '-' := by
  intro hc
  subst hc
  exact absurd h (by decide)

theorem collapseAux_chars (b : Bool) (m : List Char) :
    ∀ c ∈ collapseAux b m, isSlugChar c = true ∨ c = '-' := by
  induction m generalizing b with
  | nil => intro c hc; simp [collapseAux] at hc
  | cons a t ih =>
    intro c hc
    by_cases ha : isSlugChar a = true
    · rw [show collapseAux b (a :: t) = a :: collapseAux false t from by
        simp [collapseAux, ha]] at hc
      rcases List.mem_cons.mp hc with rfl | hc
      · exact Or.inl ha
      · exact ih false c hc
    · cases b
      · rw [show collapseAux false (a :: t) = '-' :: collapseAux true t from by
          simp [collapseAux, ha]] at hc
        rcases List.mem_cons.mp hc with rfl | hc
        · exact Or.inr rfl
        · exact ih true c hc
      · rw [show collapseAux true (a :: t) = collapseAux true t from by
          simp [collapseAux, ha]] at hc
        exact ih true c hc

theorem collapseAux_true_head (m : List Char) :
    ∀ {d : Char}, (collapseAux true m).head? = some d → isSlugChar d = true := by
  induction m with
  | nil => intro d h; simp [collapseAux] at h
  | cons a t ih =>
    intro d h
    by_cases ha : isSlugChar a = true
    · rw [show collapseAux true (a :: t) = a :: collapseAux false t from by
        simp [collapseAux, ha]] at h
      cases h
      exact ha
    · rw [show collapseAux true (a :: t) = collapseAux true t from by
        simp [collapseAux, ha]] at h
      exact ih h

theorem collapseAux_chain (b : Bool) (m : List Char) :
    List.Chain' (fun x y => ¬(x = '-' ∧ y = '-')) (collapseAux b m) := by
  induction m generalizing b with
  | nil => simp [collapseAux]
  | cons a t ih =>
    by_cases ha : isSlugChar a = true
    · rw [show collapseAux b (a :: t) = a :: collapseAux false t from by
        simp [collapseAux, ha]]
      refine List.chain'_cons'.mpr ⟨fun y _ hcon => ?_, ih false⟩
      exact slugChar_ne_dash ha hcon.1
    · cases b
      · rw [show collapseAux false (a :: t) = '-' :: collapseAux true t from by
          simp [collapseAux, ha]]
        refine List.chain'_cons'.mpr ⟨fun y hy hcon => ?_, ih true⟩
        have hys : (collapseAux true t).head? = some y := hy
        exact slugChar_ne_dash (collapseAux_true_head t hys) hcon.2
      · rw [show collapseAux true (a :: t) = collapseAux true t from by
          simp [collapseAux, ha]]
        exact ih true

theorem slugDFA_true_of_good (t : List Char)
    (hchars : ∀ c ∈ t, isSlugChar c = true ∨ c = '-')
    (hchain : List.Chain' (fun x y => ¬(x = '-' ∧ y = '-')) t)
    (hlast : ¬ t.getLast? = some '-') : slugDFA true t = true := by
  induction t with
  | nil => rfl
  | cons a u ih =>
    by_cases ha : isSlugChar a = true
    · rw [show slugDFA true (a :: u) = slugDFA true u from by simp [slugDFA, ha]]
      refine ih (fun c hc => hchars c (List.mem_cons_of_mem a hc))
        (List.chain'_cons'.mp hchain).2 ?_
      cases u with
      | nil => simp
      | cons c v => rwa [List.getLast?_cons_cons] at hlast
    · have ha' : a = '-' := (hchars a (List.mem_cons_self a u)).resolve_left ha
      subst ha'
      rw [show slugDFA true ('-' :: u) = slugDFA false u from by
        simp [slugDFA, show isSlugChar '-' = false from by decide]]
      cases u with
      | nil =>
        exact absurd (show (['-'] : List Char).getLast? = some '-' from rfl) hlast
      | cons c v =>
        have hR := (List.chain'_cons.mp hchain).1
        have hc : ¬ c = '-' := fun hcd => hR ⟨rfl, hcd⟩
        have hcal : isSlugChar c = true :=
          (hchars c (by simp)).resolve_right hc
        have hiv : slugDFA true (c :: v) = true := by
          refine ih (fun x hx => hchars x (List.mem_cons_of_mem _ hx))
            (List.chain'_cons.mp hchain).2 ?_
          rwa [List.getLast?_cons_cons] at hlast
        rw [show slugDFA false (c :: v) = slugDFA true v from by simp [slugDFA, hcal]]
        rwa [show slugDFA true (c :: v) = slugDFA true v from by
          simp [slugDFA, hcal]] at hiv

theorem dropWhile_head_false {p : Char → Bool} :
    ∀ (l : List Char) {a : Char} {t : List Char},
      l.dropWhile p = a :: t → p a = false := by
  intro l
  induction l with
  | nil => intro a t h; simp at h
  | cons c u ih =>
    intro a t h
    rw [List.dropWhile_cons] at h
    split at h
    · exact ih h
    · rename_i hpc
      cases h
      exact Bool.eq_false_iff.mpr hpc

theorem stripDashes_pattern {r0 : List Char}
    (hchars : ∀ c ∈ r0, isSlugChar c = true ∨ c = '-')
    (hchain : List.Chain' (fun x y => ¬(x = '-' ∧ y = '-')) r0) :
    stripDashes r0 = [] ∨ slugPatOk (stripDashes r0) = true := by
  unfold stripDashes
  cases hr2 : List.rdropWhile (fun c => c = '-')
      (r0.dropWhile (fun c => c = '-')) with
  | nil => exact Or.inl rfl
  | cons a t =>
    right
    have hpre : (a :: t) <+: r0.dropWhile (fun c => c = '-') := by
      rw [← hr2]; exact List.rdropWhile_prefix _ _
    have hsuf : r0.dropWhile (fun c => c = '-') <:+ r0 := List.dropWhile_suffix _
    have hmem : ∀ c ∈ a :: t, isSlugChar c = true ∨ c = '-' := fun c hc =>
      hchars c (hsuf.subset (hpre.subset hc))
    have hchain2 : List.Chain' (fun x y => ¬(x = '-' ∧ y = '-')) (a :: t) :=
      List.Chain'.prefix (List.Chain'.suffix hchain hsuf) hpre
    have hhead : ¬ a = '-' := by
      obtain ⟨s, hs⟩ := hpre
      have := dropWhile_head_false (p := fun c => c = '-') r0 (a := a) (t := t ++ s)
        (by rw [← hs]; rfl)
      simpa using this
    have haal : isSlugChar a = true := (hmem a (List.mem_cons_self a t)).resolve_right hhead
    have hlast : ¬ (a :: t).getLast? = some '-' := by
      intro hlc
      have hne : List.rdropWhile (fun c => c = '-')
          (r0.dropWhile (fun c => c = '-')) ≠ [] := by
        rw [hr2]; simp
      have hnot := List.rdropWhile_last_not (fun c => c = '-')
        (r0.dropWhile (fun c => c = '-')) hne
      apply hnot
      have h1 : (List.rdropWhile (fun c => c = '-')
          (r0.dropWhile (fun c => c = '-'))).getLast? = some '-' := by
        rw [hr2]; exact hlc
      rw [List.getLast?_eq_getLast _ hne] at h1
      simp [Option.some.inj h1]
    rw [show slugPatOk (a :: t) = slugDFA true t from by simp [slugPatOk, slugDFA, haal]]
    exact slugDFA_true_of_good t
      (fun c hc => hmem c (List.mem_cons_of_mem a hc))
      (List.chain'_cons'.mp hchain2).2
      (by cases t with
        | nil => simp
        | cons c v => rwa [List.getLast?_cons_cons] at hlast)

theorem generateSlugCore_pattern (l : List Char) :
    generateSlugCore l = [] ∨ slugPatOk (generateSlugCore l) = true :=
  stripDashes_pattern
    (collapseAux_chars false (jsTrimList (l.map jsLowerChar)))
    (collapseAux_chain false (jsTrimList (l.map jsLowerChar)))

theorem slugDFA_chars : ∀ (b : Bool) (r : List Char), slugDFA b r = true →
    ∀ c ∈ r, isSlugChar c = true ∨ c = '-' := by
  intro b r
  induction r generalizing b with
  | nil => intro _ c hc; simp at hc
  | cons a t ih =>
    intro h c hc
    by_cases ha : isSlugChar a = true
    · rw [show slugDFA b (a :: t) = slugDFA true t from by simp [slugDFA, ha]] at h
      rcases List.mem_cons.mp hc with rfl | hc
      · exact Or.inl ha
      · exact ih true h c hc
    · by_cases hd : a = '-'
      · subst hd
        cases b with
        | false =>
          rw [show slugDFA false ('-' :: t) = false from by simp [slugDFA, ha]] at h
          exact absurd h (by simp)
        | true =>
          rw [show slugDFA true ('-' :: t) = slugDFA false t from by
            simp [slugDFA, ha]] at h
          rcases List.mem_cons.mp hc with rfl | hc
          · exact Or.inr rfl
          · exact ih false h c hc
      · rw [show slugDFA b (a :: t) = false from by simp [slugDFA, ha, hd]] at h
        exact absurd h (by simp)

theorem slugDFA_false_head {r : List Char} (h : slugDFA false r = true) :
    ∃ a t, r = a :: t ∧ isSlugChar a = true := by
  cases r with
  | nil => exact absurd h (by simp [slugDFA])
  | cons a t =>
    by_cases ha : isSlugChar a = true
    · exact ⟨a, t, rfl, ha⟩
    · by_cases hd : a = '-'
      · subst hd
        rw [show slugDFA false ('-' :: t) = false from by simp [slugDFA, ha]] at h
        exact absurd h (by simp)
      · rw [show slugDFA false (a :: t) = false from by simp [slugDFA, ha, hd]] at h
        exact absurd h (by simp)

theorem collapseAux_fix_pair : ∀ (r : List Char),
    (slugDFA false r = true → ∀ b, collapseAux b r = r) ∧
    (slugDFA true r = true → collapseAux false r = r) := by
  intro r
  induction r with
  | nil => exact ⟨fun h => absurd h (by simp [slugDFA]), fun _ => rfl⟩
  | cons a t ih =>
    constructor
    · intro h b
      by_cases ha : isSlugChar a = true
      · have h' : slugDFA true t = true := by
          rwa [show slugDFA false (a :: t) = slugDFA true t from by
            simp [slugDFA, ha]] at h
        simp [collapseAux, ha, ih.2 h']
      · by_cases hd : a = '-'
        · subst hd
          rw [show slugDFA false ('-' :: t) = false from by simp [slugDFA, ha]] at h
          exact absurd h (by simp)
        · rw [show slugDFA false (a :: t) = false from by simp [slugDFA, ha, hd]] at h
          exact absurd h (by simp)
    · intro h
      by_cases ha : isSlugChar a = true
      · have h' : slugDFA true t = true := by
          rwa [show slugDFA true (a :: t) = slugDFA true t from by
            simp [slugDFA, ha]] at h
        simp [collapseAux, ha, ih.2 h']
      · by_cases hd : a = '-'
        · subst hd
          have h' : slugDFA false t = true := by
            rwa [show slugDFA true ('-' :: t) = slugDFA false t from by
              simp [slugDFA, ha]] at h
          have ht := ih.1 h' true
          rw [show collapseAux false ('-' :: t) = '-' :: collapseAux true t from by
            simp [collapseAux, show isSlugChar '-' = false from by decide]]
          rw [ht]
        · rw [show slugDFA true (a :: t) = false from by simp [slugDFA, ha, hd]] at h
          exact absurd h (by simp)

theorem slugDFA_last : ∀ (b : Bool) (r : List Char), slugDFA b r = true →
    ¬ r.getLast? = some '-' := by
  intro b r
  induction r generalizing b with
  | nil => intro _ hl; exact absurd hl (by simp)
  | cons a t ih =>
    intro h hl
    cases t with
    | nil =>
      have ha : a = '-' := by simpa using hl
      subst ha
      rw [show slugDFA b ['-'] = false from by
        cases b <;> simp [slugDFA, show isSlugChar '-' = false from by decide]] at h
      exact absurd h (by simp)
    | cons c v =>
      rw [List.getLast?_cons_cons] at hl
      by_cases ha : isSlugChar a = true
      · rw [show slugDFA b (a :: c :: v) = slugDFA true (c :: v) from by
          simp [slugDFA, ha]] at h
        exact ih true h hl
      · by_cases hd : a = '-'
        · subst hd
          cases b with
          | false =>
            rw [show slugDFA false ('-' :: c :: v) = false from by
              simp [slugDFA, ha]] at h
            exact absurd h (by simp)
          | true =>
            rw [show slugDFA true ('-' :: c :: v) = slugDFA false (c :: v) from by
              simp [slugDFA, ha]] at h
            exact ih false h hl
        · rw [show slugDFA b (a :: c :: v) = false from by
            simp [slugDFA, ha, hd]] at h
          exact absurd h (by simp)

theorem generateSlugCore_fix {r : List Char} (h : slugPatOk r = true) :
    generateSlugCore r = r := by
  have hdfa : slugDFA false r = true := h
  have hchars := slugDFA_chars false r hdfa
  have hlow : r.map jsLowerChar = r :=
    map_lower_eq_self fun c hc => (slugChar_fix (hchars c hc)).1
  have htrim : jsTrimList r = r :=
    jsTrimList_eq_self fun c hc => (slugChar_fix (hchars c hc)).2
  have hcol : collapseAux false r = r := (collapseAux_fix_pair r).1 hdfa false
  obtain ⟨a, t, heq, ha⟩ := slugDFA_false_head hdfa
  have hdrop : r.dropWhile (fun c => c = '-') = r := by
    rw [heq, List.dropWhile_cons, if_neg (by simp [slugChar_ne_dash ha])]
  have hrdrop : List.rdropWhile (fun c => c = '-') r = r := by
    refine List.rdropWhile_eq_self_iff.mpr fun hl => ?_
    have := slugDFA_last false r hdfa
    rw [List.getLast?_eq_getLast r hl] at this
    simpa using fun hx => this (by rw [hx])
  show stripDashes (collapseAux false (jsTrimList (r.map jsLowerChar))) = r
  rw [hlow, htrim, hcol]
  unfold stripDashes
  rw [hdrop, hrdrop]

/-- C3: every slug the normalizer produces matches
`^[a-z0-9]+(-[a-z0-9]+)*$` or is the empty string, and the normalizer is
idempotent — re-applying it to its own output returns the output unchanged. -/
theorem generateSlug_pattern_idempotent (s : String) :
    (slugPatOk (generateSlug s).toList = true ∨ generateSlug s = "") ∧
    generateSlug (generateSlug s) = generateSlug s := by
  have hpat := generateSlugCore_pattern s.toList
  constructor
  · rcases hpat with h | h
    · right
      show String.mk (generateSlugCore s.toList) = ""
      rw [h]
    · exact Or.inl h
  · show String.mk (generateSlugCore (String.mk (generateSlugCore s.toList)).toList) =
      String.mk (generateSlugCore s.toList)
    rcases hpat with h | h
    · show String.mk (generateSlugCore (generateSlugCore s.toList)) = _
      rw [h]
      rfl
    · rw [show (String.mk (generateSlugCore s.toList)).toList =
        generateSlugCore s.toList from rfl]
      rw [generateSlugCore_fix h]

end DevEvents
